import Mathlib

/-!
Shallow embedding of the `blinker` crate (`src/lib.rs`): a fixed-capacity
stack of blink schedules (`heapless::Vec<Schedule, N>`) driving a stateful
output pin.  The stack is modelled as a `List Schedule` whose LAST element
is the top of the stack (`Vec::push` appends, `last`/`last_mut`/`pop`
operate on the final element).  Methods taking `&mut self` and returning
`Result<(), E>` are modelled as functions `Blinker N → Except E Unit × Blinker N`:
on error the returned state is the state at the early-return point.
Pin effects (toggle count, set-low count, logical level) and the
`Timer::after` suspensions are recorded explicitly so that theorems can
speak about how often the pin was toggled and how long was waited.
-/

/-- `embassy_time::Duration`, abstracted to its tick count. -/
abbrev Duration := Nat

/-- Error type of the pin capability; the crate treats pin errors as opaque
(`P::Error`), so one abstract error value suffices. -/
inductive PinError where
  | pinError
deriving DecidableEq, Repr

/-- The stateful output pin capability (`embedded_hal::digital::StatefulOutputPin`),
instrumented with effect counters.  `failToggle` / `failSetLow` choose whether the
fallible operations fail, modelling the environment. -/
structure Pin where
  toggles : Nat
  setLows : Nat
  level : Bool
  failToggle : Bool
  failSetLow : Bool
deriving DecidableEq, Repr

/-- Successful toggle: flips the logical level and records the call. -/
def Pin.toggleOk (p : Pin) : Pin :=
  { p with toggles := p.toggles + 1, level := !p.level }

/-- `StatefulOutputPin::toggle`, fallible. -/
def Pin.toggle (p : Pin) : Except PinError Pin :=
  if p.failToggle then .error .pinError else .ok p.toggleOk

/-- Successful set-low: forces the level low and records the call. -/
def Pin.setLowOk (p : Pin) : Pin :=
  { p with setLows := p.setLows + 1, level := false }

/-- `OutputPin::set_low`, fallible. -/
def Pin.set_low (p : Pin) : Except PinError Pin :=
  if p.failSetLow then .error .pinError else .ok p.setLowOk

/-- `n` consecutive successful toggles. -/
def Pin.toggleIter (p : Pin) : Nat → Pin
  | 0 => p
  | n + 1 => p.toggleOk.toggleIter n

/-- `Schedule` from `src/lib.rs`: `Infinite(Duration)` or `Finite(u32, Duration)`. -/
inductive Schedule where
  | Infinite (dur : Duration)
  | Finite (count : Nat) (dur : Duration)
deriving DecidableEq, Repr

/-- The interval bound by the `match` in `step`
(`Schedule::Finite(_, dur) | Schedule::Infinite(dur)`). -/
def Schedule.dur : Schedule → Duration
  | .Infinite d => d
  | .Finite _ d => d

/-- `u32::checked_sub(1)`: `none` exactly on underflow (operand zero). -/
def checked_sub_one (n : Nat) : Option Nat :=
  if n = 0 then none else some (n - 1)

/-- `Blinker<P, N>`: a pin plus the schedule stack (top = last element).
`waits` is instrumentation recording each `Timer::after(dur)` suspension. -/
structure Blinker (N : Nat) where
  pin : Pin
  schedule : List Schedule
  waits : List Duration
deriving DecidableEq, Repr

/-- `Blinker::new(pin)`: empty schedule stack, pin untouched. -/
def Blinker.new (N : Nat) (pin : Pin) : Blinker N :=
  { pin := pin, schedule := [], waits := [] }

/-- `Blinker::push_schedule`: `heapless::Vec::push`, which appends when below
capacity `N` and otherwise hands the rejected element back unchanged. -/
def Blinker.push_schedule {N : Nat} (b : Blinker N) (s : Schedule) :
    Except Schedule Unit × Blinker N :=
  if b.schedule.length < N then
    (.ok (), { b with schedule := b.schedule ++ [s] })
  else
    (.error s, b)

/-- `Blinker::reset`: `set_low` the pin first; only on success clear the stack. -/
def Blinker.reset {N : Nat} (b : Blinker N) : Except PinError Unit × Blinker N :=
  match b.pin.set_low with
  | .error e => (.error e, b)
  | .ok p => (.ok (), { b with pin := p, schedule := [] })

/-- `Blinker::decrease_count`: if the top of the stack is `Finite`, decrement
its count with `checked_sub(1)`, replacing the top on success and popping the
top on underflow; otherwise do nothing. -/
def Blinker.decrease_count {N : Nat} (b : Blinker N) : Blinker N :=
  match b.schedule.getLast? with
  | some (Schedule.Finite count dur) =>
    match checked_sub_one count with
    | some c => { b with schedule := b.schedule.dropLast ++ [Schedule.Finite c dur] }
    | none => { b with schedule := b.schedule.dropLast }
  | _ => b

/-- `Blinker::step`: if the stack is non-empty, toggle the pin (propagating a
pin error before the wait) and suspend for the top schedule's interval; then
run `decrease_count` and return success. -/
def Blinker.step {N : Nat} (b : Blinker N) : Except PinError Unit × Blinker N :=
  match b.schedule.getLast? with
  | none => (.ok (), b.decrease_count)
  | some s =>
    match b.pin.toggle with
    | .error e => (.error e, b)
    | .ok p =>
      (.ok (), Blinker.decrease_count
        { b with pin := p, waits := b.waits ++ [s.dur] })

/-- `n` consecutive `step` calls, stopping at the first pin error. -/
def Blinker.stepN {N : Nat} : Nat → Blinker N → Except PinError Unit × Blinker N
  | 0, b => (.ok (), b)
  | n + 1, b =>
    match b.step with
    | (.ok _, b') => b'.stepN n
    | (.error e, b') => (.error e, b')

/-- A pin that never fails, with all counters at zero, level low. -/
def pin0 : Pin :=
  { toggles := 0, setLows := 0, level := false, failToggle := false, failSetLow := false }

/-- A pin whose fallible operations always fail. -/
def pinBad : Pin :=
  { toggles := 0, setLows := 0, level := false, failToggle := true, failSetLow := true }

theorem Pin.toggle_of_not_fail (p : Pin) (hp : p.failToggle = false) :
    p.toggle = .ok p.toggleOk := by
  simp [Pin.toggle, hp]

theorem Pin.toggleOk_failToggle (p : Pin) : p.toggleOk.failToggle = p.failToggle := rfl

theorem Pin.toggleIter_toggles (p : Pin) (n : Nat) :
    (p.toggleIter n).toggles = p.toggles + n := by
  induction n generalizing p with
  | zero => rfl
  | succ n ih =>
    show (p.toggleOk.toggleIter n).toggles = p.toggles + (n + 1)
    rw [ih]
    show p.toggles + 1 + n = p.toggles + (n + 1)
    omega

theorem Pin.toggleIter_failToggle (p : Pin) (n : Nat) :
    (p.toggleIter n).failToggle = p.failToggle := by
  induction n generalizing p with
  | zero => rfl
  | succ n ih =>
    show (p.toggleOk.toggleIter n).failToggle = p.failToggle
    rw [ih p.toggleOk, Pin.toggleOk_failToggle]

theorem Pin.toggleIter_succ_right (p : Pin) (n : Nat) :
    p.toggleIter (n + 1) = (p.toggleIter n).toggleOk := by
  induction n generalizing p with
  | zero => rfl
  | succ n ih =>
    show p.toggleOk.toggleIter (n + 1) = (p.toggleOk.toggleIter n).toggleOk
    rw [ih]

theorem Blinker.decrease_count_finite {N : Nat} (b : Blinker N) (init : List Schedule)
    (c : Nat) (d : Duration) (hs : b.schedule = init ++ [Schedule.Finite c d]) :
    b.decrease_count =
      { b with schedule := if c = 0 then init else init ++ [Schedule.Finite (c - 1) d] } := by
  by_cases hc : c = 0 <;>
    simp [Blinker.decrease_count, hs, List.getLast?_concat, checked_sub_one, hc,
      List.dropLast_concat]

theorem Blinker.decrease_count_infinite {N : Nat} (b : Blinker N) (init : List Schedule)
    (d : Duration) (hs : b.schedule = init ++ [Schedule.Infinite d]) :
    b.decrease_count = b := by
  simp [Blinker.decrease_count, hs, List.getLast?_concat]

theorem Blinker.decrease_count_nil {N : Nat} (b : Blinker N) (hs : b.schedule = []) :
    b.decrease_count = b := by
  simp [Blinker.decrease_count, hs]

theorem Blinker.step_nil {N : Nat} (b : Blinker N) (hs : b.schedule = []) :
    b.step = (.ok (), b) := by
  simp [Blinker.step, hs, Blinker.decrease_count_nil b hs]

theorem Blinker.step_fail {N : Nat} (b : Blinker N) (hp : b.pin.failToggle = true)
    (hs : b.schedule ≠ []) : b.step = (.error .pinError, b) := by
  rcases List.eq_nil_or_concat b.schedule with h | ⟨init, s, h⟩
  · exact absurd h hs
  · simp [Blinker.step, h, List.getLast?_concat, Pin.toggle, hp]

theorem Blinker.step_finite {N : Nat} (b : Blinker N) (init : List Schedule)
    (c : Nat) (d : Duration) (hp : b.pin.failToggle = false)
    (hs : b.schedule = init ++ [Schedule.Finite c d]) :
    b.step = (.ok (), { pin := b.pin.toggleOk,
                        schedule := if c = 0 then init else init ++ [Schedule.Finite (c - 1) d],
                        waits := b.waits ++ [d] }) := by
  obtain ⟨p, sch, w⟩ := b
  simp only at hs hp
  subst hs
  by_cases hc : c = 0 <;>
    simp [Blinker.step, List.getLast?_concat, Pin.toggle, Pin.toggleOk, hp, Schedule.dur,
      Blinker.decrease_count, checked_sub_one, hc, List.dropLast_concat]

theorem Blinker.step_infinite {N : Nat} (b : Blinker N) (init : List Schedule)
    (d : Duration) (hp : b.pin.failToggle = false)
    (hs : b.schedule = init ++ [Schedule.Infinite d]) :
    b.step = (.ok (), { pin := b.pin.toggleOk,
                        schedule := b.schedule, waits := b.waits ++ [d] }) := by
  obtain ⟨p, sch, w⟩ := b
  simp only at hs hp
  subst hs
  simp [Blinker.step, List.getLast?_concat, Pin.toggle, Pin.toggleOk, hp, Schedule.dur,
    Blinker.decrease_count]

theorem Blinker.stepN_add {N : Nat} (m n : Nat) (b : Blinker N) :
    b.stepN (m + n) =
      match b.stepN m with
      | (.ok _, b') => b'.stepN n
      | (.error e, b') => (.error e, b') := by
  induction m generalizing b with
  | zero => simp [Blinker.stepN]
  | succ m ih =>
    have hmn : m + 1 + n = (m + n) + 1 := by omega
    rw [hmn]
    simp only [Blinker.stepN]
    rcases hb : b.step with ⟨r, b'⟩
    rcases r with e | u
    · simp
    · simp [ih]

theorem Blinker.step_finite_succ {N : Nat} (b : Blinker N) (init : List Schedule)
    (c : Nat) (d : Duration) (hp : b.pin.failToggle = false)
    (hs : b.schedule = init ++ [Schedule.Finite (c + 1) d]) :
    b.step = (.ok (), { pin := b.pin.toggleOk,
                        schedule := init ++ [Schedule.Finite c d],
                        waits := b.waits ++ [d] }) := by
  have h := Blinker.step_finite b init (c + 1) d hp hs
  rw [if_neg (Nat.succ_ne_zero c)] at h
  simpa using h

theorem Blinker.step_finite_zero {N : Nat} (b : Blinker N) (init : List Schedule)
    (d : Duration) (hp : b.pin.failToggle = false)
    (hs : b.schedule = init ++ [Schedule.Finite 0 d]) :
    b.step = (.ok (), { pin := b.pin.toggleOk, schedule := init,
                        waits := b.waits ++ [d] }) := by
  have h := Blinker.step_finite b init 0 d hp hs
  simpa using h

theorem Blinker.stepN_finite_le {N : Nat} (j : Nat) :
    ∀ (c : Nat) (d : Duration) (init : List Schedule) (b : Blinker N),
      b.pin.failToggle = false → b.schedule = init ++ [Schedule.Finite c d] → j ≤ c →
      b.stepN j = (.ok (), { pin := b.pin.toggleIter j,
                             schedule := init ++ [Schedule.Finite (c - j) d],
                             waits := b.waits ++ List.replicate j d }) := by
  induction j with
  | zero =>
    intro c d init b hp hs _
    obtain ⟨p, sch, w⟩ := b
    simp only at hs
    subst hs
    simp [Blinker.stepN, Pin.toggleIter]
  | succ j ih =>
    intro c d init b hp hs hj
    obtain ⟨c', rfl⟩ : ∃ c', c = c' + 1 := ⟨c - 1, by omega⟩
    have hstep := Blinker.step_finite_succ b init c' d hp hs
    have hrec := ih c' d init
      { pin := b.pin.toggleOk, schedule := init ++ [Schedule.Finite c' d],
        waits := b.waits ++ [d] } (by simpa [Pin.toggleOk] using hp) rfl (by omega)
    simp only at hrec
    simp only [Blinker.stepN]
    rw [hstep]
    simp [hrec, Pin.toggleIter, List.replicate_succ, Nat.succ_sub_succ]

theorem Blinker.stepN_infinite {N : Nat} (m : Nat) :
    ∀ (d : Duration) (init : List Schedule) (b : Blinker N),
      b.pin.failToggle = false → b.schedule = init ++ [Schedule.Infinite d] →
      b.stepN m = (.ok (), { pin := b.pin.toggleIter m,
                             schedule := b.schedule,
                             waits := b.waits ++ List.replicate m d }) := by
  induction m with
  | zero =>
    intro d init b hp hs
    obtain ⟨p, sch, w⟩ := b
    simp [Blinker.stepN, Pin.toggleIter]
  | succ m ih =>
    intro d init b hp hs
    have hstep := Blinker.step_infinite b init d hp hs
    have hrec := ih d init
      { pin := b.pin.toggleOk, schedule := b.schedule, waits := b.waits ++ [d] }
      (by simpa [Pin.toggleOk] using hp) hs
    simp only at hrec
    simp only [Blinker.stepN]
    rw [hstep]
    simp [hrec, Pin.toggleIter, List.replicate_succ]

theorem Blinker.stepN_one_ok {N : Nat} (b b' : Blinker N) (h : b.step = (.ok (), b')) :
    b.stepN 1 = (.ok (), b') := by
  simp only [Blinker.stepN]
  rw [h]

theorem Blinker.stepN_finite_run {N : Nat} (c : Nat) (d : Duration) (init : List Schedule)
    (b : Blinker N) (hp : b.pin.failToggle = false)
    (hs : b.schedule = init ++ [Schedule.Finite c d]) :
    b.stepN (c + 1) = (.ok (), { pin := b.pin.toggleIter (c + 1),
                                 schedule := init,
                                 waits := b.waits ++ List.replicate (c + 1) d }) := by
  have h1 := Blinker.stepN_finite_le c c d init b hp hs le_rfl
  simp only [Nat.sub_self] at h1
  have hstep0 := Blinker.step_finite_zero
      ({ pin := b.pin.toggleIter c, schedule := init ++ [Schedule.Finite 0 d],
         waits := b.waits ++ List.replicate c d } : Blinker N) init d
      (by simpa [Pin.toggleIter_failToggle] using hp) rfl
  simp only at hstep0
  have h2 := Blinker.stepN_one_ok _ _ hstep0
  have hadd := Blinker.stepN_add c 1 b
  rw [h1] at hadd
  simp only at hadd
  rw [h2] at hadd
  rw [hadd]
  simp [Pin.toggleIter_succ_right, List.replicate_succ', List.append_assoc]

/-- C6: calling `step` on an empty schedule stack performs zero pin operations
(the pin field, including its toggle and set-low counters, is unchanged),
leaves the stack empty, and returns success. -/
theorem c6_step_empty_noop {N : Nat} (b : Blinker N) (hs : b.schedule = []) :
    b.step = (.ok (), b) :=
  Blinker.step_nil b hs

/-- C6 witness: `step` on a freshly constructed blinker (empty stack) is a no-op. -/
theorem c6_step_empty_noop_witness :
    (Blinker.new 1 pin0).step = (.ok (), Blinker.new 1 pin0) :=
  c6_step_empty_noop (Blinker.new 1 pin0) rfl

/-- C7: if the pin toggle fails during `step` (non-empty stack, failing pin),
`step` returns the pin error before the wait and before `decrease_count` runs:
the returned state is exactly the state at the start of the call (schedule
stack, every count, and the wait log all unchanged). -/
theorem c7_step_toggle_error {N : Nat} (b : Blinker N)
    (hp : b.pin.failToggle = true) (hs : b.schedule ≠ []) :
    b.step = (.error .pinError, b) :=
  Blinker.step_fail b hp hs

/-- C7 witness: a failing toggle aborts a step on a concrete two-element stack,
leaving the state untouched. -/
theorem c7_step_toggle_error_witness :
    ({ pin := pinBad, schedule := [Schedule.Infinite 5, Schedule.Finite 3 7],
       waits := [] } : Blinker 2).step
      = (.error .pinError,
         { pin := pinBad, schedule := [Schedule.Infinite 5, Schedule.Finite 3 7],
           waits := [] }) :=
  c7_step_toggle_error _ rfl (by decide)

/-- C3: `reset` performs exactly one set-low write before touching the stack:
on success the whole schedule stack is cleared (whatever it held) and the pin
records one more set-low with its level forced low; on failure the pin's error
is returned and the blinker is exactly as it was before the call. -/
theorem c3_reset_atomic {N : Nat} (b : Blinker N) :
    (b.pin.failSetLow = false →
      b.reset = (.ok (), { pin := b.pin.setLowOk, schedule := [], waits := b.waits })) ∧
    (b.pin.failSetLow = true → b.reset = (.error .pinError, b)) := by
  constructor
  · intro h
    simp [Blinker.reset, Pin.set_low, h]
  · intro h
    simp [Blinker.reset, Pin.set_low, h]

/-- C3 witness: on a concrete non-empty stack, `reset` clears the stack and
records a single set-low; with a failing pin it returns the error and leaves
the stack as it was. -/
theorem c3_reset_atomic_witness :
    ({ pin := pin0, schedule := [Schedule.Infinite 5, Schedule.Finite 3 7],
       waits := [] } : Blinker 2).reset
      = (.ok (), { pin := pin0.setLowOk, schedule := [], waits := [] }) ∧
    ({ pin := pinBad, schedule := [Schedule.Infinite 5], waits := [] } : Blinker 1).reset
      = (.error .pinError,
         { pin := pinBad, schedule := [Schedule.Infinite 5], waits := [] }) :=
  ⟨(c3_reset_atomic _).1 rfl, (c3_reset_atomic _).2 rfl⟩

/-- C4: `push_schedule` fails exactly when the stack already holds `N`
schedules; on failure it hands the rejected schedule back and the blinker
(stack and pin) is unchanged; on success the schedule is appended and the
stack still respects the capacity bound `N`. -/
theorem c4_push_capacity {N : Nat} (b : Blinker N) (s : Schedule)
    (hinv : b.schedule.length ≤ N) :
    (b.schedule.length = N → b.push_schedule s = (.error s, b)) ∧
    (b.schedule.length < N →
      b.push_schedule s = (.ok (), { b with schedule := b.schedule ++ [s] }) ∧
      (b.schedule ++ [s]).length ≤ N) := by
  constructor
  · intro h
    simp [Blinker.push_schedule, h]
  · intro h
    constructor
    · simp [Blinker.push_schedule, h]
    · simp only [List.length_append, List.length_singleton]
      omega

/-- C4 witness: pushing onto a full stack of capacity 1 fails and returns the
rejected schedule with the state unchanged; pushing onto an empty stack of
capacity 1 succeeds and stays within capacity. -/
theorem c4_push_capacity_witness :
    ({ pin := pin0, schedule := [Schedule.Infinite 7], waits := [] } : Blinker 1).push_schedule
        (Schedule.Finite 1 3)
      = (.error (Schedule.Finite 1 3),
         { pin := pin0, schedule := [Schedule.Infinite 7], waits := [] }) ∧
    (Blinker.new 1 pin0).push_schedule (Schedule.Finite 1 3)
      = (.ok (), { pin := pin0, schedule := [Schedule.Finite 1 3], waits := [] }) :=
  ⟨(c4_push_capacity _ (Schedule.Finite 1 3) (by decide)).1 rfl,
   ((c4_push_capacity (Blinker.new 1 pin0) (Schedule.Finite 1 3) (by decide)).2
      (by decide)).1⟩

/-- C2 counterexample: with `Finite(1, 100)` alone on the stack, the step that
decrements the count to zero does NOT remove the schedule — the stack still
holds `Finite(0, 100)` after that call, contradicting removal on the same
step in which the count reaches zero. -/
theorem c2_counterexample :
    (({ pin := pin0, schedule := [Schedule.Finite 1 100], waits := [] } : Blinker 2).step).2.schedule
      = [Schedule.Finite 0 100] ∧
    (({ pin := pin0, schedule := [Schedule.Finite 1 100], waits := [] } : Blinker 2).step).2.schedule
      ≠ [] := by
  decide

/-- C2 (amended): a `step` that observes `Finite(c, d)` at the top of the stack
decrements the count by one when `c > 0`; when it observes the count already at
zero, that same call pops the schedule (removal happens on the call AFTER the
one whose decrement reached zero), in both cases after one toggle and wait. -/
theorem c2_amended_step {N : Nat} (b : Blinker N) (init : List Schedule) (c : Nat)
    (d : Duration) (hp : b.pin.failToggle = false)
    (hs : b.schedule = init ++ [Schedule.Finite c d]) :
    b.step = (.ok (), { pin := b.pin.toggleOk,
                        schedule := if c = 0 then init
                                    else init ++ [Schedule.Finite (c - 1) d],
                        waits := b.waits ++ [d] }) :=
  Blinker.step_finite b init c d hp hs

/-- C2 witness: one step on `Finite(1, 100)` decrements the count to zero and
keeps the schedule on the stack. -/
theorem c2_amended_step_witness :
    ({ pin := pin0, schedule := [Schedule.Finite 1 100], waits := [] } : Blinker 2).step
      = (.ok (), { pin := pin0.toggleOk, schedule := [Schedule.Finite 0 100],
                   waits := [100] }) := by
  have h := c2_amended_step
      ({ pin := pin0, schedule := [Schedule.Finite 1 100], waits := [] } : Blinker 2)
      [] 1 100 rfl rfl
  simpa using h

/-- C9 counterexample: a step observing `Finite(0, 100)` at the top does retire
it, but it performs one more toggle and one more wait while doing so — not
zero, as the claim states. -/
theorem c9_counterexample :
    (({ pin := pin0, schedule := [Schedule.Finite 0 100], waits := [] } : Blinker 1).step).2.schedule
      = [] ∧
    (({ pin := pin0, schedule := [Schedule.Finite 0 100], waits := [] } : Blinker 1).step).2.pin.toggles
      ≠ 0 ∧
    (({ pin := pin0, schedule := [Schedule.Finite 0 100], waits := [] } : Blinker 1).step).2.waits
      ≠ [] := by
  decide

/-- C9 (amended): when `Finite(0, d)` is at the top of the stack, the step call
that observes it toggles the pin once more, waits `d` once more, and then
retires the schedule (pops it) on that same call. -/
theorem c9_amended_zero_top {N : Nat} (b : Blinker N) (init : List Schedule)
    (d : Duration) (hp : b.pin.failToggle = false)
    (hs : b.schedule = init ++ [Schedule.Finite 0 d]) :
    b.step = (.ok (), { pin := b.pin.toggleOk, schedule := init,
                        waits := b.waits ++ [d] }) :=
  Blinker.step_finite_zero b init d hp hs

/-- C9 witness: retiring a concrete `Finite(0, 100)` top-of-stack schedule. -/
theorem c9_amended_zero_top_witness :
    ({ pin := pin0, schedule := [Schedule.Finite 0 100], waits := [] } : Blinker 1).step
      = (.ok (), { pin := pin0.toggleOk, schedule := [], waits := [100] }) := by
  have h := c9_amended_zero_top
      ({ pin := pin0, schedule := [Schedule.Finite 0 100], waits := [] } : Blinker 1)
      [] 100 rfl rfl
  simpa using h

/-- C5: pushing `Infinite(d)` onto an empty stack (any positive capacity) and
stepping `m` times succeeds, leaves exactly that one schedule on the stack,
waits `d` each time, and toggles the pin exactly `m` times; an `Infinite`
schedule is never popped by `step`. -/
theorem c5_infinite_run (N m : Nat) (d : Duration) (p : Pin)
    (hp : p.failToggle = false) (hN : 0 < N) :
    ((Blinker.new N p).push_schedule (Schedule.Infinite d)).1 = .ok () ∧
    Blinker.stepN m ((Blinker.new N p).push_schedule (Schedule.Infinite d)).2
      = (.ok (), { pin := p.toggleIter m, schedule := [Schedule.Infinite d],
                   waits := List.replicate m d }) ∧
    (p.toggleIter m).toggles = p.toggles + m := by
  have hpush : (Blinker.new N p).push_schedule (Schedule.Infinite d)
      = (.ok (), { pin := p, schedule := [Schedule.Infinite d], waits := [] }) := by
    simp [Blinker.new, Blinker.push_schedule, hN]
  refine ⟨by rw [hpush], ?_, Pin.toggleIter_toggles p m⟩
  have hpush2 : ((Blinker.new N p).push_schedule (Schedule.Infinite d)).2
      = ({ pin := p, schedule := [Schedule.Infinite d], waits := [] } : Blinker N) := by
    rw [hpush]
  rw [hpush2]
  have h := Blinker.stepN_infinite m d []
      ({ pin := p, schedule := [Schedule.Infinite d], waits := [] } : Blinker N) hp rfl
  simpa using h

/-- C5 witness: three steps on a pushed `Infinite(100)` schedule toggle three
times and leave the single schedule in place. -/
theorem c5_infinite_run_witness :
    ((Blinker.new 1 pin0).push_schedule (Schedule.Infinite 100)).1 = .ok () ∧
    Blinker.stepN 3 ((Blinker.new 1 pin0).push_schedule (Schedule.Infinite 100)).2
      = (.ok (), { pin := pin0.toggleIter 3, schedule := [Schedule.Infinite 100],
                   waits := List.replicate 3 100 }) ∧
    (pin0.toggleIter 3).toggles = pin0.toggles + 3 :=
  c5_infinite_run 1 3 100 pin0 rfl (by decide)

/-- C8: `step` only reads or mutates the top of the schedule stack: whatever
the stack below the top holds, it is still there, unchanged and in order,
after the call; only the top element may have been replaced (decremented) or
removed. -/
theorem c8_step_frame {N : Nat} (b : Blinker N) (init : List Schedule) (top : Schedule)
    (hs : b.schedule = init ++ [top]) :
    ∃ rest, (b.step).2.schedule = init ++ rest ∧ rest.length ≤ 1 := by
  cases hf : b.pin.failToggle with
  | true =>
    refine ⟨[top], ?_, by simp⟩
    rw [Blinker.step_fail b hf (by simp [hs])]
    simpa using hs
  | false =>
    cases top with
    | Infinite d =>
      refine ⟨[Schedule.Infinite d], ?_, by simp⟩
      rw [Blinker.step_infinite b init d hf hs]
      simpa using hs
    | Finite c d =>
      by_cases hc : c = 0
      · subst hc
        refine ⟨[], ?_, by simp⟩
        rw [Blinker.step_finite_zero b init d hf hs]
        simp
      · refine ⟨[Schedule.Finite (c - 1) d], ?_, by simp⟩
        rw [Blinker.step_finite b init c d hf hs]
        simp [hc]

/-- C8 witness: stepping with `Finite(0, 2)` layered above `Infinite(1)` leaves
the `Infinite(1)` schedule below untouched. -/
theorem c8_step_frame_witness :
    ∃ rest,
      (({ pin := pin0, schedule := [Schedule.Infinite 1, Schedule.Finite 0 2],
          waits := [] } : Blinker 2).step).2.schedule
        = [Schedule.Infinite 1] ++ rest ∧ rest.length ≤ 1 :=
  c8_step_frame _ [Schedule.Infinite 1] (Schedule.Finite 0 2) rfl

/-- C1 counterexample: push `Finite(2, 100)` onto an empty stack of capacity 2
and step twice — the stack is NOT empty (it still holds `Finite(0, 100)`),
contradicting the claim that `k` steps empty the stack. -/
theorem c1_counterexample :
    (Blinker.stepN 2 ((Blinker.new 2 pin0).push_schedule (Schedule.Finite 2 100)).2).2.schedule
      ≠ [] := by
  decide

/-- C1 (amended): for every `k > 0` and duration `d`, pushing `Finite(k, d)`
onto an empty stack succeeds, after `k` steps the stack still holds
`Finite(0, d)`, the `(k+1)`-th step pops it leaving the stack empty with the
pin toggled exactly `k+1` times (once per step), and a further step call
performs no additional toggle. -/
theorem c1_amended_run (k : Nat) (d : Duration) (p : Pin)
    (hp : p.failToggle = false) (hk : 0 < k) :
    ((Blinker.new 2 p).push_schedule (Schedule.Finite k d)).1 = .ok () ∧
    (Blinker.stepN k ((Blinker.new 2 p).push_schedule (Schedule.Finite k d)).2).2.schedule
      = [Schedule.Finite 0 d] ∧
    Blinker.stepN (k + 1) ((Blinker.new 2 p).push_schedule (Schedule.Finite k d)).2
      = (.ok (), { pin := p.toggleIter (k + 1), schedule := [],
                   waits := List.replicate (k + 1) d }) ∧
    (p.toggleIter (k + 1)).toggles = p.toggles + (k + 1) ∧
    (Blinker.stepN (k + 2) ((Blinker.new 2 p).push_schedule (Schedule.Finite k d)).2).2.pin.toggles
      = p.toggles + (k + 1) := by
  have hpush : (Blinker.new 2 p).push_schedule (Schedule.Finite k d)
      = (.ok (), { pin := p, schedule := [Schedule.Finite k d], waits := [] }) := by
    simp [Blinker.new, Blinker.push_schedule]
  have hpush2 : ((Blinker.new 2 p).push_schedule (Schedule.Finite k d)).2
      = ({ pin := p, schedule := [Schedule.Finite k d], waits := [] } : Blinker 2) := by
    rw [hpush]
  have hrun := Blinker.stepN_finite_run k d []
      ({ pin := p, schedule := [Schedule.Finite k d], waits := [] } : Blinker 2) hp rfl
  have hfull : Blinker.stepN (k + 1 + 1)
      ({ pin := p, schedule := [Schedule.Finite k d], waits := [] } : Blinker 2)
      = (.ok (), ({ pin := p.toggleIter (k + 1), schedule := [],
                    waits := List.replicate (k + 1) d } : Blinker 2)) := by
    rw [Blinker.stepN_add (k + 1) 1, hrun]
    exact Blinker.stepN_one_ok _ _ (Blinker.step_nil _ rfl)
  refine ⟨by rw [hpush], ?_, ?_, Pin.toggleIter_toggles p (k + 1), ?_⟩
  · rw [hpush2]
    have hle := Blinker.stepN_finite_le k k d []
        ({ pin := p, schedule := [Schedule.Finite k d], waits := [] } : Blinker 2) hp rfl le_rfl
    rw [hle]
    simp [Nat.sub_self]
  · rw [hpush2]
    exact hrun
  · rw [hpush2]
    have hk2 : k + 2 = k + 1 + 1 := rfl
    rw [hk2, hfull]
    simp [Pin.toggleIter_toggles]

/-- C1 witness: the concrete scenario at `k = 2`, `d = 100`. -/
theorem c1_amended_run_witness :
    ((Blinker.new 2 pin0).push_schedule (Schedule.Finite 2 100)).1 = .ok () ∧
    (Blinker.stepN 2 ((Blinker.new 2 pin0).push_schedule (Schedule.Finite 2 100)).2).2.schedule
      = [Schedule.Finite 0 100] ∧
    Blinker.stepN 3 ((Blinker.new 2 pin0).push_schedule (Schedule.Finite 2 100)).2
      = (.ok (), { pin := pin0.toggleIter 3, schedule := [],
                   waits := List.replicate 3 100 }) ∧
    (pin0.toggleIter 3).toggles = pin0.toggles + 3 ∧
    (Blinker.stepN 4 ((Blinker.new 2 pin0).push_schedule (Schedule.Finite 2 100)).2).2.pin.toggles
      = pin0.toggles + 3 :=
  c1_amended_run 2 100 pin0 rfl (by decide)

/-- C10: for every `k ≥ 0` and duration `d`, pushing `Finite(k, d)` onto an
empty stack succeeds; each of the first `k` steps leaves `Finite(k - j, d)` on
the stack with `j` toggles performed (so the stack is non-empty through step
`k`), and the `(k+1)`-th step — the one whose decrement underflows on a count
already at zero — pops the schedule, making the stack empty for the first
time, with the pin toggled exactly `k + 1` times in total. -/
theorem c10_finite_full_run (k : Nat) (d : Duration) (p : Pin)
    (hp : p.failToggle = false) :
    ((Blinker.new 2 p).push_schedule (Schedule.Finite k d)).1 = .ok () ∧
    (∀ j, j ≤ k →
      (Blinker.stepN j ((Blinker.new 2 p).push_schedule (Schedule.Finite k d)).2).2.schedule
        = [Schedule.Finite (k - j) d] ∧
      (Blinker.stepN j ((Blinker.new 2 p).push_schedule (Schedule.Finite k d)).2).2.pin.toggles
        = p.toggles + j) ∧
    Blinker.stepN (k + 1) ((Blinker.new 2 p).push_schedule (Schedule.Finite k d)).2
      = (.ok (), { pin := p.toggleIter (k + 1), schedule := [],
                   waits := List.replicate (k + 1) d }) ∧
    (p.toggleIter (k + 1)).toggles = p.toggles + (k + 1) := by
  have hpush : (Blinker.new 2 p).push_schedule (Schedule.Finite k d)
      = (.ok (), { pin := p, schedule := [Schedule.Finite k d], waits := [] }) := by
    simp [Blinker.new, Blinker.push_schedule]
  have hpush2 : ((Blinker.new 2 p).push_schedule (Schedule.Finite k d)).2
      = ({ pin := p, schedule := [Schedule.Finite k d], waits := [] } : Blinker 2) := by
    rw [hpush]
  refine ⟨by rw [hpush], ?_, ?_, Pin.toggleIter_toggles p (k + 1)⟩
  · intro j hj
    have hle := Blinker.stepN_finite_le j k d []
        ({ pin := p, schedule := [Schedule.Finite k d], waits := [] } : Blinker 2) hp rfl hj
    rw [hpush2, hle]
    exact ⟨by simp, by simpa using Pin.toggleIter_toggles p j⟩
  · rw [hpush2]
    exact Blinker.stepN_finite_run k d []
      ({ pin := p, schedule := [Schedule.Finite k d], waits := [] } : Blinker 2) hp rfl

/-- C10 witness: the `k = 2`, `d = 100` run — after two steps the stack holds
`Finite(0, 100)` with two toggles done; the third step empties the stack with
three toggles in total. -/
theorem c10_finite_full_run_witness :
    (Blinker.stepN 2 ((Blinker.new 2 pin0).push_schedule (Schedule.Finite 2 100)).2).2.schedule
      = [Schedule.Finite 0 100] ∧
    (Blinker.stepN 2 ((Blinker.new 2 pin0).push_schedule (Schedule.Finite 2 100)).2).2.pin.toggles
      = pin0.toggles + 2 ∧
    Blinker.stepN 3 ((Blinker.new 2 pin0).push_schedule (Schedule.Finite 2 100)).2
      = (.ok (), { pin := pin0.toggleIter 3, schedule := [],
                   waits := List.replicate 3 100 }) := by
  have h := c10_finite_full_run 2 100 pin0 rfl
  exact ⟨(h.2.1 2 (by decide)).1, (h.2.1 2 (by decide)).2, h.2.2.1⟩
